import Mathlib

/-!
Verification of the K-Means clustering core of the KMeans-Parallelizer
repository against its natural-language specification.

The embedding models the three variants cited by the claims:
`src/lightning-serial.cpp` (the sequential iteration driver used as the
reference), `src/fast-serial.cpp` (its nearest-centroid oracle), and
`src/usion-parallel.cpp` (the concurrent iteration driver).

Modelling conventions:
- `double` coordinates are modelled as exact rationals `ℚ`; claims stated
  "up to floating-point tolerance" become exact equalities in this
  idealized arithmetic.
- A point is its feature vector `List ℚ`; the mutable per-point
  `cluster_id` state is a parallel `List Int` (`-1` = unassigned, as in
  the `Point` constructor).
- `std::vector` indexing that the source performs out of bounds is
  undefined behaviour in C++.  The embedding totalizes such accesses
  (reads yield the `getD` default, writes are dropped); wherever a claim
  depends on an access being in bounds, the in-bounds condition is stated
  explicitly as a proposition instead of being assumed.
- The concurrent driver is rendered with a single execution context
  (one `tbb::enumerable_thread_specific` slot).  All merged quantities are
  independent of the partition into contexts in exact arithmetic, and the
  per-point assignment writes are race-free by the range partition, so
  this rendering is the deterministic outcome the specification describes.
- The `while (true)` loops of both drivers stop via
  `done || iter >= max_iterations`.  To make the model executable by the
  kernel the recursion is driven by an explicit fuel counter, called with
  fuel `max_iterations`; the stopping rule fires before fuel can run out
  (the fuel-exhaustion branch returns the same value the break would),
  so fuel is only a termination device, not a semantic change.
-/

namespace KMeansPar

/-- Exact rational addition in a form the kernel evaluates directly
(the standard `Rat` operations are irreducible to the elaborator, which
blocks `decide`); proven equal to `+` in `qAdd_eq` below. -/
def qAdd (a b : ℚ) : ℚ := mkRat (a.num * b.den + b.num * a.den) (a.den * b.den)

/-- Exact rational subtraction; equals `-` by `qSub_eq`. -/
def qSub (a b : ℚ) : ℚ := mkRat (a.num * b.den - b.num * a.den) (a.den * b.den)

/-- Exact rational multiplication; equals `*` by `qMul_eq`. -/
def qMul (a b : ℚ) : ℚ := mkRat (a.num * b.num) (a.den * b.den)

/-- Exact rational division; equals `/` by `qDiv_eq`. -/
def qDiv (a b : ℚ) : ℚ := qMul a (Rat.divInt (b.den : Int) b.num)

/-- Squared Euclidean distance between a centroid row and a point
(`getIDNearestCenter` inner loops in both serial variants): the sum over
the common coordinates of the squared differences.  The loop unrolling by
4 in the source only reorders the additions, which is the identity in
exact arithmetic. -/
def distSq : List ℚ → List ℚ → ℚ
  | c :: cs, p :: ps => qAdd (qMul (qSub c p) (qSub c p)) (distSq cs ps)
  | _, _ => 0

/-- The scanning loop of `KMeans::getIDNearestCenter`
(`lightning-serial.cpp` lines 127-157): `i` is the index of the next
centroid, `best` the current `id_cluster_center`, and the `Option ℚ`
the current `min_dist_sq`, with `none` standing for the initial
`numeric_limits<double>::max()` (every finite distance compares below
it). -/
def nearestAux (p : List ℚ) : List (List ℚ) → Nat → Nat → Option ℚ → Nat
  | [], _, best, _ => best
  | c :: rest, i, _, none => nearestAux p rest (i + 1) i (some (distSq c p))
  | c :: rest, i, best, some m =>
    if distSq c p < m then nearestAux p rest (i + 1) i (some (distSq c p))
    else nearestAux p rest (i + 1) best (some m)

/-- `KMeans::getIDNearestCenter` of `lightning-serial.cpp` (and
`usion-parallel.cpp`, which has the identical body): starts with
`id_cluster_center = 0` and `min_dist_sq = DBL_MAX` and scans all `K`
centroids with a strict `<` update. -/
def getIDNearestCenter (cents : List (List ℚ)) (p : List ℚ) : Nat :=
  nearestAux p cents 0 0 none

/-- `KMeans::getIDNearestCenter` of `fast-serial.cpp` (lines 189-237):
computes the distance to centroid 0 first as the reference `min_dist`,
then scans centroids `1..K-1` with the same strict `<` update.  For
`K = 0` the source would read `clusters[0]` out of bounds; the model
returns the initial `id_cluster_center = 0`. -/
def fastGetIDNearestCenter (cents : List (List ℚ)) (p : List ℚ) : Nat :=
  match cents with
  | [] => 0
  | c0 :: rest => nearestAux p rest 1 0 (some (distSq c0 p))

/-- Update the element at index `i` of a list in place, as
`v[i] = f(v[i])` on a `std::vector`; an index past the end is dropped
(in C++ it would be an out-of-bounds access). -/
def updAt {α : Type} : List α → Nat → (α → α) → List α
  | [], _, _ => []
  | x :: xs, 0, f => f x :: xs
  | x :: xs, k + 1, f => x :: updAt xs k f

/-- Update at a C++ `int` index: a negative index (such as the `-1` of an
unassigned point) is an out-of-bounds access in the source; the model
drops the write. -/
def updAtI {α : Type} (l : List α) (i : Int) (f : α → α) : List α :=
  match i with
  | .ofNat k => updAt l k f
  | .negSucc _ => l

/-- Pointwise `+=` of a point row into an accumulator row
(`new_centroids[cluster_id][j] += points[i].getValue(j)`): coordinates
past either row are left alone / dropped. -/
def addVec : List ℚ → List ℚ → List ℚ
  | s :: ss, v :: vs => qAdd s v :: addVec ss vs
  | ss, [] => ss
  | [], _ :: _ => []

/-- The per-cluster accumulation loop shared by `lightning-serial.cpp`
(lines 221-241, after the assignment pass) and the pre-loop sum of
`usion-parallel.cpp` (lines 216-225): for each point, bump
`cluster_sizes[cluster_id]` and add the point into
`new_centroids[cluster_id]`, indexing by the current (possibly `-1`)
cluster id. -/
def clusterSums : List (List ℚ) → List Nat → List (List ℚ) → List Int →
    List (List ℚ) × List Nat
  | sums, counts, pv :: pvs, a :: rest =>
    clusterSums (updAtI sums a (fun row => addVec row pv))
      (updAtI counts a (· + 1)) pvs rest
  | sums, counts, _, _ => (sums, counts)

/-- The feature vectors of the points whose current cluster id equals
`i`, in point order (specification-side description of "all points with
`cluster_id == i`"). -/
def assignedVals : List (List ℚ) → List Int → Nat → List (List ℚ)
  | pv :: pvs, a :: rest, i =>
    if a = (i : Int) then pv :: assignedVals pvs rest i
    else assignedVals pvs rest i
  | _, _, _ => []

/-- Sum of coordinate `j` over a list of feature vectors
(specification-side description of the per-coordinate sum). -/
def coordSum : List (List ℚ) → Nat → ℚ
  | [], _ => 0
  | v :: vs, j => v.getD j 0 + coordSum vs j

/-- The assignment pass (`lightning-serial.cpp` lines 204-214): each
point is reassigned to its nearest centroid, and the `done` flag is
cleared when any point changes cluster.  Returns the new cluster ids and
the "changed" flag (the negation of `done`). -/
def assignStep (cents : List (List ℚ)) : List (List ℚ) → List Int →
    List Int × Bool
  | pv :: pvs, a :: rest =>
    let nw : Int := (getIDNearestCenter cents pv : Nat)
    let r := assignStep cents pvs rest
    (nw :: r.1, (decide (a ≠ nw)) || r.2)
  | _, _ => ([], false)

/-- One centroid row of the divide step:
`clusters[i].setCentralValue(j, new_centroids[i][j] * inv_cluster_size)`
with `inv_cluster_size = 1.0 / cluster_sizes[i]`. -/
def recomputeRow (srow : List ℚ) (cnt : Nat) : List ℚ :=
  srow.map (fun s => qMul s (qDiv 1 (cnt : ℚ)))

/-- The divide step shared by `lightning-serial.cpp` (lines 244-266) and
`usion-parallel.cpp` (lines 235-242 and 298-305): each centroid with a
positive count is replaced by its accumulated sum divided by its count,
and a centroid whose count is zero keeps its previous coordinates. -/
def recompute : List (List ℚ) → List (List ℚ) → List Nat → List (List ℚ)
  | c :: cs, s :: ss, n :: ns =>
    (if 0 < n then recomputeRow s n else c) :: recompute cs ss ns
  | cs, _, _ => cs

/-- The two terminal states of the iteration driver state machine. -/
inductive StopReason : Type
  | CONVERGED : StopReason
  | ITERATION_LIMIT_REACHED : StopReason
deriving DecidableEq

/-- Outcome of `KMeans::run`: either the structural-precondition no-op
(`K > total_points`, the function returns before clustering), or the
completed loop with the final assignments, centroids, stopping iteration
and stop reason. -/
inductive RunOutcome : Type
  | noop : List Int → RunOutcome
  | finished : List Int → List (List ℚ) → Nat → StopReason → RunOutcome
deriving DecidableEq

/-- Final per-point cluster ids handed to the reporting collaborator. -/
def RunOutcome.assignOf : RunOutcome → List Int
  | .noop a => a
  | .finished a _ _ _ => a

/-- The iteration count at which the driver stopped (0 for the no-op). -/
def RunOutcome.iterOf : RunOutcome → Nat
  | .noop _ => 0
  | .finished _ _ i _ => i

/-- Cluster ids at load time: every point starts with `id_cluster = -1`
(the `Point` constructor). -/
def initAssign (n : Nat) : List Int := List.replicate n (-1)

/-- The seed-selection effect on the point store (`run` step 1): the
`k`-th chosen point index receives cluster id `k`
(`points[index_point].setCluster(chosen_indexes.size() - 1)`).  The
random rejection loop is abstracted by the list of distinct chosen
indices in insertion order. -/
def seedAssign : List Int → List Nat → Nat → List Int
  | assign, [], _ => assign
  | assign, s :: rest, k => seedAssign (updAt assign s (fun _ => (k : Int))) rest (k + 1)

/-- The initial centroids: centroid `k` copies the coordinates of the
`k`-th chosen seed point (`clusters.emplace_back(...)`). -/
def seedCents (pts : List (List ℚ)) (seeds : List Nat) : List (List ℚ) :=
  seeds.map (fun s => pts.getD s [])

/-- The `while (true)` loop of `lightning-serial.cpp::KMeans::run`
(lines 198-278): assignment pass, per-cluster sums over the fresh
assignments, divide step, then `if (done || iter >= max_iterations)
break;` else `iter++`.  `fuel` drives the recursion (see the module
comment); its exhaustion branch returns exactly what the break would. -/
def serialLoop (K D : Nat) (pts : List (List ℚ)) (maxIter : Nat) :
    Nat → List Int → List (List ℚ) → Nat → RunOutcome
  | fuel, assign, cents, iter =>
    let a := assignStep cents pts assign
    let z := clusterSums (List.replicate K (List.replicate D 0))
      (List.replicate K 0) pts a.1
    let cents' := recompute cents z.1 z.2
    if a.2 = false ∨ maxIter ≤ iter then
      .finished a.1 cents' iter
        (if a.2 then .ITERATION_LIMIT_REACHED else .CONVERGED)
    else
      match fuel with
      | 0 => .finished a.1 cents' iter
          (if a.2 then .ITERATION_LIMIT_REACHED else .CONVERGED)
      | fuel' + 1 => serialLoop K D pts maxIter fuel' a.1 cents' (iter + 1)

/-- `KMeans::run` of `lightning-serial.cpp`: the `K > total_points`
guard, seed selection, then the iteration loop starting at `iter = 1`. -/
def serialRun (K D maxIter : Nat) (pts : List (List ℚ)) (seeds : List Nat) :
    RunOutcome :=
  let n := pts.length
  if n < K then .noop (initAssign n)
  else
    serialLoop K D pts maxIter maxIter
      (seedAssign (initAssign n) seeds 0) (seedCents pts seeds) 1

/-- Result of the fused reassign + sum step of `usion-parallel.cpp`
(lines 246-264), rendered with a single execution context: the new
assignments, the or-accumulated atomic "changed" flag (negation of
`done`), and the context's thread-local accumulators after the pass. -/
structure FusedOut : Type where
  assign : List Int
  changed : Bool
  locS : List (List ℚ)
  locC : List Nat
deriving DecidableEq

/-- The fused reassign + sum loop body: reassign the point, set `done`
to false on a change, then `local_cluster_sizes[new_cluster]++` and
`local_centroids[new_cluster][j] += ...`.  The thread-local vectors are
whatever the caller passes in; the source never sizes them, so updates
past their length are out-of-bounds accesses, dropped by the model. -/
def fusedStep (cents : List (List ℚ)) : List (List ℚ) → List Int →
    List (List ℚ) → List Nat → FusedOut
  | pv :: pvs, a :: rest, lS, lC =>
    let nw := getIDNearestCenter cents pv
    let lS' := updAt lS nw (fun row => addVec row pv)
    let lC' := updAt lC nw (· + 1)
    let r := fusedStep cents pvs rest lS' lC'
    ⟨(nw : Int) :: r.assign, (decide (a ≠ (nw : Int))) || r.changed, r.locS, r.locC⟩
  | _, _, lS, lC => ⟨[], false, lS, lC⟩

/-- The merge step for the sums (`new_centroids[i][j] +=
local_centroids[i][j]` for `i < K`): positions the local accumulator
does not reach contribute nothing (in the source they are out-of-bounds
reads). -/
def mergeRows : List (List ℚ) → List (List ℚ) → List (List ℚ)
  | g :: gs, l :: ls => addVec g l :: mergeRows gs ls
  | gs, [] => gs
  | [], _ :: _ => []

/-- The merge step for the counts (`cluster_sizes[i] +=
local_cluster_sizes[i]`). -/
def mergeCounts : List Nat → List Nat → List Nat
  | g :: gs, l :: ls => (g + l) :: mergeCounts gs ls
  | gs, [] => gs
  | [], _ :: _ => []

/-- The `while (true)` loop of `usion-parallel.cpp::KMeans::run`
(lines 231-296) plus the final centroid computation after the break
(lines 298-305), with a single execution context.  Body order, as in the
source: divide step from the incoming global sums/counts; fused
reassign + sum into the persistent thread-local accumulators (declared
outside the loop and never reset); merge the locals into the global
sums/counts; reset the global sums/counts to zero; check
`done || iter >= max_iterations`.  At the break, the final computation
runs on the just-reset (all-zero) global sums/counts. -/
def usionLoop (K D : Nat) (pts : List (List ℚ)) (maxIter : Nat) :
    Nat → List Int → List (List ℚ) → List (List ℚ) → List Nat →
    List (List ℚ) → List Nat → Nat → RunOutcome
  | fuel, assign, cents, gs, gc, lS, lC, iter =>
    let cents' := recompute cents gs gc
    let r := fusedStep cents' pts assign lS lC
    -- the merged sums/counts are computed here, as in the source, but the
    -- reset that follows immediately zeroes the globals, so nothing ever
    -- reads them: this dead merge is the defect behind claims C1 and C2
    let _gsMerged := mergeRows gs r.locS
    let _gcMerged := mergeCounts gc r.locC
    let gs0 : List (List ℚ) := List.replicate K (List.replicate D 0)
    let gc0 : List Nat := List.replicate K 0
    if r.changed = false ∨ maxIter ≤ iter then
      .finished r.assign (recompute cents' gs0 gc0) iter
        (if r.changed then .ITERATION_LIMIT_REACHED else .CONVERGED)
    else
      match fuel with
      | 0 => .finished r.assign (recompute cents' gs0 gc0) iter
          (if r.changed then .ITERATION_LIMIT_REACHED else .CONVERGED)
      | fuel' + 1 =>
        usionLoop K D pts maxIter fuel' r.assign cents' gs0 gc0 r.locS r.locC (iter + 1)

/-- `KMeans::run` of `usion-parallel.cpp`: the `K > total_points` guard,
seed selection, the pre-loop computation of the initial per-cluster
sums/counts over the seed-time assignments (lines 216-225, where every
unseeded point still has cluster id `-1`), then the fused loop starting
at `iter = 1` with default-constructed (empty) thread-local
accumulators. -/
def usionRun (K D maxIter : Nat) (pts : List (List ℚ)) (seeds : List Nat) :
    RunOutcome :=
  let n := pts.length
  if n < K then .noop (initAssign n)
  else
    let a0 := seedAssign (initAssign n) seeds 0
    let z := clusterSums (List.replicate K (List.replicate D 0))
      (List.replicate K 0) pts a0
    usionLoop K D pts maxIter maxIter a0 (seedCents pts seeds) z.1 z.2 [] [] 1

/-! ### The kernel-evaluable rational operations are the field operations -/

theorem qAdd_eq (a b : ℚ) : qAdd a b = a + b := (Rat.add_def' a b).symm

theorem qSub_eq (a b : ℚ) : qSub a b = a - b := (Rat.sub_def' a b).symm

theorem qMul_eq (a b : ℚ) : qMul a b = a * b := by
  rw [Rat.mul_def, Rat.normalize_eq_mkRat]
  rfl

theorem qDiv_eq (a b : ℚ) : qDiv a b = a / b := by
  rw [Rat.div_def, Rat.inv_def, ← qMul_eq]
  rfl

/-! ### Basic lemmas about the list-update primitives -/

theorem updAt_length {α : Type} (l : List α) (k : Nat) (f : α → α) :
    (updAt l k f).length = l.length := by
  induction l generalizing k with
  | nil => rfl
  | cons x xs ih => cases k with
    | zero => rfl
    | succ k => simpa [updAt] using ih k

theorem updAtI_length {α : Type} (l : List α) (i : Int) (f : α → α) :
    (updAtI l i f).length = l.length := by
  cases i with
  | ofNat k => simpa [updAtI] using updAt_length l k f
  | negSucc k => rfl

theorem getD_updAt_ne {α : Type} (l : List α) (k i : Nat) (f : α → α) (d : α)
    (h : i ≠ k) : (updAt l k f).getD i d = l.getD i d := by
  induction l generalizing k i with
  | nil => rfl
  | cons x xs ih =>
    cases k with
    | zero =>
      cases i with
      | zero => exact absurd rfl h
      | succ i => simp [updAt]
    | succ k =>
      cases i with
      | zero => simp [updAt]
      | succ i => simpa [updAt] using ih k i (by omega)

theorem getD_updAt_eq {α : Type} (l : List α) (k : Nat) (f : α → α) (d : α)
    (h : k < l.length) : (updAt l k f).getD k d = f (l.getD k d) := by
  induction l generalizing k with
  | nil => simp at h
  | cons x xs ih =>
    cases k with
    | zero => simp [updAt]
    | succ k => simpa [updAt] using ih k (by simpa using h)

theorem mem_updAt {α : Type} {P : α → Prop} {f : α → α}
    (hf : ∀ x, P x → P (f x)) :
    ∀ (l : List α) (k : Nat), (∀ x ∈ l, P x) → ∀ x ∈ updAt l k f, P x := by
  intro l
  induction l with
  | nil => intro k _; simp [updAt]
  | cons y ys ih =>
    intro k hl
    cases k with
    | zero =>
      intro x hx
      rcases List.mem_cons.mp hx with h | h
      · exact h ▸ hf y (hl y (by simp))
      · exact hl x (by simp [h])
    | succ k =>
      intro x hx
      rcases List.mem_cons.mp hx with h | h
      · exact h ▸ hl y (by simp)
      · exact ih k (fun z hz => hl z (by simp [hz])) x h

theorem mem_updAtI {α : Type} {P : α → Prop} {l : List α} {i : Int} {f : α → α}
    (hl : ∀ x ∈ l, P x) (hf : ∀ x, P x → P (f x)) :
    ∀ x ∈ updAtI l i f, P x := by
  cases i with
  | ofNat k => exact mem_updAt hf l k hl
  | negSucc k => simpa [updAtI] using hl

theorem addVec_length (s v : List ℚ) : (addVec s v).length = s.length := by
  induction s generalizing v with
  | nil => cases v <;> rfl
  | cons x xs ih => cases v with
    | nil => rfl
    | cons y ys => simpa [addVec] using ih ys

theorem getD_addVec (s v : List ℚ) (j : Nat) (h : j < s.length) :
    (addVec s v).getD j 0 = s.getD j 0 + v.getD j 0 := by
  induction s generalizing v j with
  | nil => simp at h
  | cons x xs ih =>
    cases v with
    | nil => simp [addVec]
    | cons y ys =>
      cases j with
      | zero => simp [addVec, qAdd_eq]
      | succ j => simpa [addVec] using ih ys j (by simpa using h)

theorem getD_mem {α : Type} (l : List α) (i : Nat) (d : α) (h : i < l.length) :
    l.getD i d ∈ l := by
  induction l generalizing i with
  | nil => simp at h
  | cons x xs ih =>
    cases i with
    | zero => simp
    | succ i => exact List.mem_cons_of_mem x (ih i (by simpa using h))

/-! ### Lemmas about the divide step -/

theorem recompute_length : ∀ (c s : List (List ℚ)) (n : List Nat),
    (recompute c s n).length = c.length := by
  intro c
  induction c with
  | nil => intro s n; cases s <;> cases n <;> rfl
  | cons x xs ih =>
    intro s n
    cases s with
    | nil => rfl
    | cons y ys => cases n with
      | nil => rfl
      | cons z zs => simpa [recompute] using ih ys zs

theorem getD_recompute : ∀ (c s : List (List ℚ)) (n : List Nat) (i : Nat),
    i < c.length → c.length = s.length → s.length = n.length →
    (recompute c s n).getD i [] =
      if 0 < n.getD i 0 then recomputeRow (s.getD i []) (n.getD i 0)
      else c.getD i [] := by
  intro c
  induction c with
  | nil => intro s n i hi; simp at hi
  | cons x xs ih =>
    intro s n i hi h1 h2
    cases s with
    | nil => simp at h1
    | cons y ys =>
      cases n with
      | nil => simp at h2
      | cons z zs =>
        cases i with
        | zero => simp [recompute]
        | succ i =>
          have := ih ys zs i (by simpa using hi) (by simpa using h1) (by simpa using h2)
          simpa [recompute] using this

theorem getD_recomputeRow (srow : List ℚ) (cnt : Nat) (j : Nat)
    (h : j < srow.length) :
    (recomputeRow srow cnt).getD j 0 = srow.getD j 0 * (1 / (cnt : ℚ)) := by
  induction srow generalizing j with
  | nil => simp at h
  | cons x xs ih =>
    cases j with
    | zero => simp [recomputeRow, qMul_eq, qDiv_eq]
    | succ j => simpa [recomputeRow] using ih j (by simpa using h)

/-! ### Lemmas about the per-cluster accumulation -/

theorem clusterSums_fst_length : ∀ (pts : List (List ℚ)) (assign : List Int)
    (sums : List (List ℚ)) (counts : List Nat),
    ((clusterSums sums counts pts assign).1).length = sums.length := by
  intro pts
  induction pts with
  | nil => intro assign sums counts; cases assign <;> rfl
  | cons pv pvs ih =>
    intro assign sums counts
    cases assign with
    | nil => rfl
    | cons a rest =>
      simpa [clusterSums, updAtI_length] using
        ih rest (updAtI sums a (fun row => addVec row pv)) (updAtI counts a (· + 1))

theorem clusterSums_snd_length : ∀ (pts : List (List ℚ)) (assign : List Int)
    (sums : List (List ℚ)) (counts : List Nat),
    ((clusterSums sums counts pts assign).2).length = counts.length := by
  intro pts
  induction pts with
  | nil => intro assign sums counts; cases assign <;> rfl
  | cons pv pvs ih =>
    intro assign sums counts
    cases assign with
    | nil => rfl
    | cons a rest =>
      simpa [clusterSums, updAtI_length] using
        ih rest (updAtI sums a (fun row => addVec row pv)) (updAtI counts a (· + 1))

theorem updAtI_coe {α : Type} (l : List α) (m : Nat) (f : α → α) :
    updAtI l (m : Int) f = updAt l m f := rfl

theorem updAtI_negSucc {α : Type} (l : List α) (m : Nat) (f : α → α) :
    updAtI l (Int.negSucc m) f = l := rfl

theorem negSucc_ne_natCast (m i : Nat) : Int.negSucc m ≠ (i : Int) :=
  ne_of_lt (lt_of_lt_of_le (Int.negSucc_lt_zero m) (Int.natCast_nonneg i))

theorem clusterSums_counts_getD (i : Nat) : ∀ (pts : List (List ℚ))
    (assign : List Int) (sums : List (List ℚ)) (counts : List Nat),
    i < counts.length →
    ((clusterSums sums counts pts assign).2).getD i 0 =
      counts.getD i 0 + (assignedVals pts assign i).length := by
  intro pts
  induction pts with
  | nil => intro assign sums counts _; cases assign <;> simp [clusterSums, assignedVals]
  | cons pv pvs ih =>
    intro assign sums counts hi
    cases assign with
    | nil => simp [clusterSums, assignedVals]
    | cons a rest =>
      have step := ih rest (updAtI sums a (fun row => addVec row pv))
        (updAtI counts a (· + 1)) (by simpa [updAtI_length] using hi)
      rw [clusterSums, step]
      rcases Int.le_or_lt 0 a with ha | ha
      · obtain ⟨m, rfl⟩ := Int.eq_ofNat_of_zero_le ha
        rw [updAtI_coe]
        by_cases hm : m = i
        · subst hm
          rw [assignedVals, if_pos rfl, getD_updAt_eq counts m _ 0 hi]
          simp only [List.length_cons]
          omega
        · rw [assignedVals, if_neg (by exact_mod_cast hm),
            getD_updAt_ne counts m i _ 0 (Ne.symm hm)]
      · obtain ⟨m, rfl⟩ := Int.eq_negSucc_of_lt_zero ha
        rw [updAtI_negSucc, assignedVals, if_neg (negSucc_ne_natCast m i)]

theorem clusterSums_sums_getD (i j : Nat) : ∀ (pts : List (List ℚ))
    (assign : List Int) (sums : List (List ℚ)) (counts : List Nat),
    i < sums.length → (∀ row ∈ sums, j < row.length) →
    (((clusterSums sums counts pts assign).1).getD i []).getD j 0 =
      (sums.getD i []).getD j 0 + coordSum (assignedVals pts assign i) j := by
  intro pts
  induction pts with
  | nil => intro assign sums counts _ _; cases assign <;> simp [clusterSums, assignedVals, coordSum]
  | cons pv pvs ih =>
    intro assign sums counts hi hrows
    cases assign with
    | nil => simp [clusterSums, assignedVals, coordSum]
    | cons a rest =>
      have hrows' : ∀ row ∈ updAtI sums a (fun row => addVec row pv), j < row.length := by
        refine mem_updAtI hrows ?_
        intro row hrow
        simpa [addVec_length] using hrow
      have step := ih rest (updAtI sums a (fun row => addVec row pv))
        (updAtI counts a (· + 1)) (by simpa [updAtI_length] using hi) hrows'
      rw [clusterSums, step]
      rcases Int.le_or_lt 0 a with ha | ha
      · obtain ⟨m, rfl⟩ := Int.eq_ofNat_of_zero_le ha
        rw [updAtI_coe]
        by_cases hm : m = i
        · subst hm
          rw [assignedVals, if_pos rfl, getD_updAt_eq sums m _ [] hi,
            getD_addVec _ pv j (hrows _ (getD_mem sums m [] hi)), coordSum]
          ring
        · rw [assignedVals, if_neg (by exact_mod_cast hm),
            getD_updAt_ne sums m i _ [] (Ne.symm hm)]
      · obtain ⟨m, rfl⟩ := Int.eq_negSucc_of_lt_zero ha
        rw [updAtI_negSucc, assignedVals, if_neg (negSucc_ne_natCast m i)]

theorem clusterSums_fst_rows (D : Nat) : ∀ (pts : List (List ℚ))
    (assign : List Int) (sums : List (List ℚ)) (counts : List Nat),
    (∀ row ∈ sums, row.length = D) →
    ∀ row ∈ (clusterSums sums counts pts assign).1, row.length = D := by
  intro pts
  induction pts with
  | nil => intro assign sums counts h; cases assign <;> simpa [clusterSums] using h
  | cons pv pvs ih =>
    intro assign sums counts h
    cases assign with
    | nil => simpa [clusterSums] using h
    | cons a rest =>
      refine ih rest _ _ (mem_updAtI h ?_)
      intro row hrow
      simpa [addVec_length] using hrow

/-! ### Lemmas about the nearest-centroid oracle -/

theorem getD_append_lt {α : Type} (l l' : List α) (d : α) (k : Nat)
    (h : k < l.length) : (l ++ l').getD k d = l.getD k d := by
  induction l generalizing k with
  | nil => simp at h
  | cons x xs ih =>
    cases k with
    | zero => rfl
    | succ k => simpa using ih k (by simpa using h)

theorem getD_append_self {α : Type} (l : List α) (c : α) (l' : List α) (d : α) :
    (l ++ c :: l').getD l.length d = c := by
  induction l with
  | nil => rfl
  | cons x xs ih => simpa using ih

/-- Main invariant of the scanning loop: if `best` is the lowest index of
a minimum of the centroids already seen and `m` its squared distance,
then the final answer is the lowest index of a minimum over the seen
centroids followed by the remaining ones. -/
theorem nearestAux_spec (p : List ℚ) :
    ∀ (rest seen : List (List ℚ)) (best : Nat) (m : ℚ),
      best < seen.length →
      distSq (seen.getD best []) p = m →
      (∀ k, k < seen.length → m ≤ distSq (seen.getD k []) p) →
      (∀ k, k < best → m < distSq (seen.getD k []) p) →
      nearestAux p rest seen.length best (some m) < (seen ++ rest).length ∧
      (∀ k, k < (seen ++ rest).length →
        distSq ((seen ++ rest).getD (nearestAux p rest seen.length best (some m)) []) p ≤
          distSq ((seen ++ rest).getD k []) p) ∧
      (∀ k, k < nearestAux p rest seen.length best (some m) →
        distSq ((seen ++ rest).getD (nearestAux p rest seen.length best (some m)) []) p <
          distSq ((seen ++ rest).getD k []) p) := by
  intro rest
  induction rest with
  | nil =>
    intro seen best m hb hm hle hlt
    simp only [nearestAux, List.append_nil]
    refine ⟨hb, ?_, ?_⟩
    · intro k hk
      rw [hm]
      exact hle k hk
    · intro k hk
      rw [hm]
      exact hlt k hk
  | cons c rest ih =>
    intro seen best m hb hm hle hlt
    have hlen : (seen ++ [c]).length = seen.length + 1 := by simp
    by_cases hs : distSq c p < m
    · have h0 := ih (seen ++ [c]) seen.length (distSq c p)
        (by omega)
        (by rw [getD_append_self])
        (by
          intro k hk
          rw [hlen] at hk
          rcases Nat.lt_or_ge k seen.length with hk' | hk'
          · rw [getD_append_lt seen [c] [] k hk']
            exact le_of_lt (lt_of_lt_of_le hs (hle k hk'))
          · have : k = seen.length := by omega
            subst this
            rw [getD_append_self])
        (by
          intro k hk
          rw [getD_append_lt seen [c] [] k hk]
          exact lt_of_lt_of_le hs (hle k hk))
      rw [hlen, List.append_assoc, List.singleton_append] at h0
      rw [nearestAux, if_pos hs]
      exact h0
    · have h0 := ih (seen ++ [c]) best m
        (by omega)
        (by rw [getD_append_lt seen [c] [] best hb]; exact hm)
        (by
          intro k hk
          rw [hlen] at hk
          rcases Nat.lt_or_ge k seen.length with hk' | hk'
          · rw [getD_append_lt seen [c] [] k hk']
            exact hle k hk'
          · have : k = seen.length := by omega
            subst this
            rw [getD_append_self]
            exact le_of_not_lt hs)
        (by
          intro k hk
          rw [getD_append_lt seen [c] [] k (by omega)]
          exact hlt k hk)
      rw [hlen, List.append_assoc, List.singleton_append] at h0
      rw [nearestAux, if_neg hs]
      exact h0

/-- Specification of both serial oracles on a non-empty centroid set:
the returned index is in range, achieves the minimum squared distance,
and is strictly better than every smaller index. -/
theorem nearest_spec (cents : List (List ℚ)) (p : List ℚ) (h : cents ≠ []) :
    getIDNearestCenter cents p < cents.length ∧
    (∀ k, k < cents.length →
      distSq (cents.getD (getIDNearestCenter cents p) []) p ≤
        distSq (cents.getD k []) p) ∧
    (∀ k, k < getIDNearestCenter cents p →
      distSq (cents.getD (getIDNearestCenter cents p) []) p <
        distSq (cents.getD k []) p) := by
  match cents with
  | [] => exact absurd rfl h
  | c :: rest =>
    have h0 := nearestAux_spec p rest [c] 0 (distSq c p)
      (by simp)
      (by rfl)
      (by
        intro k hk
        have : k = 0 := by simpa using Nat.lt_one_iff.mp (by simpa using hk)
        subst this
        rfl)
      (by intro k hk; omega)
    simp only [List.length_singleton, List.singleton_append] at h0
    exact h0

theorem nearest_lt (cents : List (List ℚ)) (p : List ℚ) (h : cents ≠ []) :
    getIDNearestCenter cents p < cents.length :=
  (nearest_spec cents p h).1

theorem fast_eq_nearest (cents : List (List ℚ)) (p : List ℚ) (h : cents ≠ []) :
    fastGetIDNearestCenter cents p = getIDNearestCenter cents p := by
  match cents with
  | [] => exact absurd rfl h
  | c :: rest => rfl

/-! ### Lemmas about the assignment pass and initialization -/

theorem assignStep_fst_length (cents : List (List ℚ)) :
    ∀ (pts : List (List ℚ)) (assign : List Int),
    assign.length = pts.length →
    ((assignStep cents pts assign).1).length = pts.length := by
  intro pts
  induction pts with
  | nil => intro assign h; cases assign <;> simp_all [assignStep]
  | cons pv pvs ih =>
    intro assign h
    cases assign with
    | nil => simp at h
    | cons a rest => simpa [assignStep] using ih rest (by simpa using h)

theorem assignStep_mem (cents : List (List ℚ)) (h : cents ≠ []) :
    ∀ (pts : List (List ℚ)) (assign : List Int),
    ∀ x ∈ (assignStep cents pts assign).1, 0 ≤ x ∧ x < (cents.length : Int) := by
  intro pts
  induction pts with
  | nil => intro assign x hx; cases assign <;> simp [assignStep] at hx
  | cons pv pvs ih =>
    intro assign x hx
    cases assign with
    | nil => simp [assignStep] at hx
    | cons a rest =>
      simp only [assignStep, List.mem_cons] at hx
      rcases hx with hx | hx
      · subst hx
        refine ⟨Int.natCast_nonneg _, ?_⟩
        exact_mod_cast nearest_lt cents pv h
      · exact ih rest x hx

theorem assignStep_K1_fst (c : List ℚ) :
    ∀ (pts : List (List ℚ)) (assign : List Int),
    assign.length = pts.length →
    (assignStep [c] pts assign).1 = List.replicate pts.length 0 := by
  intro pts
  induction pts with
  | nil => intro assign h; cases assign <;> simp_all [assignStep]
  | cons pv pvs ih =>
    intro assign h
    cases assign with
    | nil => simp at h
    | cons a rest =>
      have : getIDNearestCenter [c] pv = 0 := rfl
      simp [assignStep, this, List.replicate_succ, ih rest (by simpa using h)]

theorem assignStep_K1_zero (c : List ℚ) (pts : List (List ℚ)) :
    assignStep [c] pts (List.replicate pts.length 0) =
      (List.replicate pts.length 0, false) := by
  induction pts with
  | nil => rfl
  | cons pv pvs ih =>
    have : getIDNearestCenter [c] pv = 0 := rfl
    simp [assignStep, List.replicate_succ, this, ih]

theorem seedAssign_length : ∀ (seeds : List Nat) (assign : List Int) (k : Nat),
    (seedAssign assign seeds k).length = assign.length := by
  intro seeds
  induction seeds with
  | nil => intro assign k; rfl
  | cons s rest ih =>
    intro assign k
    simpa [seedAssign, updAt_length] using ih (updAt assign s (fun _ => (k : Int))) (k + 1)

theorem seedCents_length (pts : List (List ℚ)) (seeds : List Nat) :
    (seedCents pts seeds).length = seeds.length := by
  simp [seedCents]

/-! ### Shape and invariants of the sequential loop -/

/-- Every exit of the sequential loop is a `finished` outcome whose
assignments come from the final assignment pass: the stop iteration is
bounded, the reason is one of the two terminal states, and every final
cluster id is in range when `K ≥ 1`. -/
theorem serialLoop_main (K D : Nat) (pts : List (List ℚ)) (maxIter : Nat) :
    ∀ (fuel iter : Nat) (assign : List Int) (cents : List (List ℚ)),
    cents.length = K → assign.length = pts.length →
    ∃ a c i r, serialLoop K D pts maxIter fuel assign cents iter = .finished a c i r ∧
      i ≤ max iter maxIter ∧
      (r = StopReason.CONVERGED ∨ r = StopReason.ITERATION_LIMIT_REACHED) ∧
      a.length = pts.length ∧
      (1 ≤ K → ∀ x ∈ a, 0 ≤ x ∧ x < (K : Int)) ∧
      c.length = K := by
  have breakConcl : ∀ (fuel iter : Nat) (assign : List Int) (cents : List (List ℚ)),
      cents.length = K → assign.length = pts.length →
      serialLoop K D pts maxIter fuel assign cents iter =
        .finished (assignStep cents pts assign).1
          (recompute cents
            (clusterSums (List.replicate K (List.replicate D 0))
              (List.replicate K 0) pts (assignStep cents pts assign).1).1
            (clusterSums (List.replicate K (List.replicate D 0))
              (List.replicate K 0) pts (assignStep cents pts assign).1).2)
          iter
          (if (assignStep cents pts assign).2 then StopReason.ITERATION_LIMIT_REACHED
            else StopReason.CONVERGED) →
      ∃ a c i r, serialLoop K D pts maxIter fuel assign cents iter = .finished a c i r ∧
        i ≤ max iter maxIter ∧
        (r = StopReason.CONVERGED ∨ r = StopReason.ITERATION_LIMIT_REACHED) ∧
        a.length = pts.length ∧
        (1 ≤ K → ∀ x ∈ a, 0 ≤ x ∧ x < (K : Int)) ∧
        c.length = K := by
    intro fuel iter assign cents hc ha heq
    refine ⟨_, _, iter, _, heq, Nat.le_max_left _ _, ?_, ?_, ?_, ?_⟩
    · cases hb : (assignStep cents pts assign).2 <;> simp [hb]
    · exact assignStep_fst_length cents pts assign ha
    · intro hK x hx
      have hne : cents ≠ [] := by
        intro hnil
        rw [hnil] at hc
        simp at hc
        omega
      have := assignStep_mem cents hne pts assign x hx
      rwa [hc] at this
    · rw [recompute_length, hc]
  intro fuel
  induction fuel with
  | zero =>
    intro iter assign cents hc ha
    refine breakConcl 0 iter assign cents hc ha ?_
    simp only [serialLoop]
    by_cases hcond : (assignStep cents pts assign).2 = false ∨ maxIter ≤ iter
    · rw [if_pos hcond]
    · rw [if_neg hcond]
  | succ fuel ih =>
    intro iter assign cents hc ha
    by_cases hcond : (assignStep cents pts assign).2 = false ∨ maxIter ≤ iter
    · refine breakConcl (fuel + 1) iter assign cents hc ha ?_
      simp only [serialLoop]
      rw [if_pos hcond]
    · have hlt : iter < maxIter := by
        rcases Nat.lt_or_ge iter maxIter with h | h
        · exact h
        · exact absurd (Or.inr h) hcond
      obtain ⟨a, c, i, r, heq, hi, hr, hal, hmem, hcl⟩ :=
        ih (iter + 1) (assignStep cents pts assign).1
          (recompute cents
            (clusterSums (List.replicate K (List.replicate D 0))
              (List.replicate K 0) pts (assignStep cents pts assign).1).1
            (clusterSums (List.replicate K (List.replicate D 0))
              (List.replicate K 0) pts (assignStep cents pts assign).1).2)
          (by rw [recompute_length, hc])
          (assignStep_fst_length cents pts assign ha)
      refine ⟨a, c, i, r, ?_, by omega, hr, hal, hmem, hcl⟩
      rw [serialLoop, if_neg hcond]
      exact heq

/-! ### Shape of the concurrent loop -/

/-- Every exit of the concurrent loop is a `finished` outcome with a
bounded stop iteration and one of the two terminal stop reasons. -/
theorem usionLoop_shape (K D : Nat) (pts : List (List ℚ)) (maxIter : Nat) :
    ∀ (fuel : Nat) (assign : List Int) (cents gs : List (List ℚ)) (gc : List Nat)
      (lS : List (List ℚ)) (lC : List Nat) (iter : Nat),
    ∃ a c i r, usionLoop K D pts maxIter fuel assign cents gs gc lS lC iter = .finished a c i r ∧
      i ≤ max iter maxIter ∧
      (r = StopReason.CONVERGED ∨ r = StopReason.ITERATION_LIMIT_REACHED) := by
  have breakConcl : ∀ (fuel : Nat) (assign : List Int) (cents gs : List (List ℚ))
      (gc : List Nat) (lS : List (List ℚ)) (lC : List Nat) (iter : Nat),
      usionLoop K D pts maxIter fuel assign cents gs gc lS lC iter =
        .finished (fusedStep (recompute cents gs gc) pts assign lS lC).assign
          (recompute (recompute cents gs gc)
            (List.replicate K (List.replicate D 0)) (List.replicate K 0))
          iter
          (if (fusedStep (recompute cents gs gc) pts assign lS lC).changed
            then StopReason.ITERATION_LIMIT_REACHED else StopReason.CONVERGED) →
      ∃ a c i r, usionLoop K D pts maxIter fuel assign cents gs gc lS lC iter = .finished a c i r ∧
        i ≤ max iter maxIter ∧
        (r = StopReason.CONVERGED ∨ r = StopReason.ITERATION_LIMIT_REACHED) := by
    intro fuel assign cents gs gc lS lC iter heq
    refine ⟨_, _, iter, _, heq, Nat.le_max_left _ _, ?_⟩
    cases hb : (fusedStep (recompute cents gs gc) pts assign lS lC).changed <;> simp [hb]
  intro fuel
  induction fuel with
  | zero =>
    intro assign cents gs gc lS lC iter
    refine breakConcl 0 assign cents gs gc lS lC iter ?_
    simp only [usionLoop]
    by_cases hcond : (fusedStep (recompute cents gs gc) pts assign lS lC).changed = false ∨ maxIter ≤ iter
    · rw [if_pos hcond]
    · rw [if_neg hcond]
  | succ fuel ih =>
    intro assign cents gs gc lS lC iter
    by_cases hcond : (fusedStep (recompute cents gs gc) pts assign lS lC).changed = false ∨ maxIter ≤ iter
    · refine breakConcl (fuel + 1) assign cents gs gc lS lC iter ?_
      simp only [usionLoop]
      rw [if_pos hcond]
    · have hlt : iter < maxIter := by
        rcases Nat.lt_or_ge iter maxIter with h | h
        · exact h
        · exact absurd (Or.inr h) hcond
      obtain ⟨a, c, i, r, heq, hi, hr⟩ :=
        ih (fusedStep (recompute cents gs gc) pts assign lS lC).assign
          (recompute cents gs gc)
          (List.replicate K (List.replicate D 0)) (List.replicate K 0)
          (fusedStep (recompute cents gs gc) pts assign lS lC).locS
          (fusedStep (recompute cents gs gc) pts assign lS lC).locC
          (iter + 1)
      refine ⟨a, c, i, r, ?_, by omega, hr⟩
      rw [usionLoop, if_neg hcond]
      exact heq

theorem getD_replicate {α : Type} (n i : Nat) (a d : α) (h : i < n) :
    (List.replicate n a).getD i d = a := by
  induction n generalizing i with
  | zero => simp at h
  | succ n ih =>
    cases i with
    | zero => rfl
    | succ i => simpa [List.replicate_succ] using ih i (by omega)

/-! ## Claim theorems -/

/-- Claim C3: for every point and every non-empty centroid set of size
`K`, `getIDNearestCenter` returns an index `0 ≤ i < K` minimizing the
squared Euclidean distance over the coordinates, breaking ties by lowest
index (strictly smaller distance than every earlier index); and the
`fast-serial.cpp` implementation of the oracle returns the same index. -/
theorem C3_nearest_center (cents : List (List ℚ)) (p : List ℚ) (h : cents ≠ []) :
    getIDNearestCenter cents p < cents.length ∧
    (∀ k, k < cents.length →
      distSq (cents.getD (getIDNearestCenter cents p) []) p ≤
        distSq (cents.getD k []) p) ∧
    (∀ k, k < getIDNearestCenter cents p →
      distSq (cents.getD (getIDNearestCenter cents p) []) p <
        distSq (cents.getD k []) p) ∧
    fastGetIDNearestCenter cents p = getIDNearestCenter cents p := by
  obtain ⟨h1, h2, h3⟩ := nearest_spec cents p h
  exact ⟨h1, h2, h3, fast_eq_nearest cents p h⟩

/-- Witness for C3 at a concrete input: centroids `[[3], [0]]` and point
`[0]`, where the oracle picks index 1. -/
theorem C3_nearest_center_witness :
    (([[3], [0]] : List (List ℚ)) ≠ []) ∧
    (getIDNearestCenter ([[3], [0]] : List (List ℚ)) [0] <
        ([[3], [0]] : List (List ℚ)).length ∧
      (∀ k, k < ([[3], [0]] : List (List ℚ)).length →
        distSq (([[3], [0]] : List (List ℚ)).getD
          (getIDNearestCenter ([[3], [0]] : List (List ℚ)) [0]) []) [0] ≤
          distSq (([[3], [0]] : List (List ℚ)).getD k []) [0]) ∧
      (∀ k, k < getIDNearestCenter ([[3], [0]] : List (List ℚ)) [0] →
        distSq (([[3], [0]] : List (List ℚ)).getD
          (getIDNearestCenter ([[3], [0]] : List (List ℚ)) [0]) []) [0] <
          distSq (([[3], [0]] : List (List ℚ)).getD k []) [0]) ∧
      fastGetIDNearestCenter ([[3], [0]] : List (List ℚ)) [0] =
        getIDNearestCenter ([[3], [0]] : List (List ℚ)) [0]) :=
  ⟨by decide, C3_nearest_center [[3], [0]] [0] (by decide)⟩

/-- Claim C4: after a RECOMPUTING phase, every cluster with at least one
assigned point has, at each coordinate, the component-wise arithmetic
mean of its assigned points (exact in the idealized arithmetic). -/
theorem C4_centroid_mean (K D : Nat) (pts : List (List ℚ)) (assign : List Int)
    (cents : List (List ℚ)) (i j : Nat)
    (hc : cents.length = K) (hi : i < K) (hj : j < D)
    (hpos : 0 < (assignedVals pts assign i).length) :
    (((recompute cents
        (clusterSums (List.replicate K (List.replicate D 0))
          (List.replicate K 0) pts assign).1
        (clusterSums (List.replicate K (List.replicate D 0))
          (List.replicate K 0) pts assign).2).getD i []).getD j 0) =
      coordSum (assignedVals pts assign i) j /
        ((assignedVals pts assign i).length : ℚ) := by
  have hlen0 : (List.replicate K (List.replicate D (0:ℚ))).length = K := by simp
  have hlenc0 : (List.replicate K (0:Nat)).length = K := by simp
  have hz1len : ((clusterSums (List.replicate K (List.replicate D 0))
      (List.replicate K 0) pts assign).1).length = K := by
    rw [clusterSums_fst_length, hlen0]
  have hz2len : ((clusterSums (List.replicate K (List.replicate D 0))
      (List.replicate K 0) pts assign).2).length = K := by
    rw [clusterSums_snd_length, hlenc0]
  have hcnt : ((clusterSums (List.replicate K (List.replicate D 0))
      (List.replicate K 0) pts assign).2).getD i 0 =
      (assignedVals pts assign i).length := by
    rw [clusterSums_counts_getD i pts assign _ _ (by rw [hlenc0]; exact hi),
      getD_replicate K i 0 0 hi]
    omega
  have hrows0 : ∀ row ∈ List.replicate K (List.replicate D (0:ℚ)), j < row.length := by
    intro row hrow
    rw [List.eq_of_mem_replicate hrow]
    simpa using hj
  have hrowsD : ∀ row ∈ (clusterSums (List.replicate K (List.replicate D 0))
      (List.replicate K 0) pts assign).1, row.length = D := by
    refine clusterSums_fst_rows D pts assign _ _ ?_
    intro row hrow
    rw [List.eq_of_mem_replicate hrow]
    simp
  have hsum : (((clusterSums (List.replicate K (List.replicate D 0))
      (List.replicate K 0) pts assign).1).getD i []).getD j 0 =
      coordSum (assignedVals pts assign i) j := by
    rw [clusterSums_sums_getD i j pts assign _ _ (by rw [hlen0]; exact hi) hrows0,
      getD_replicate K i (List.replicate D 0) [] hi,
      getD_replicate D j (0:ℚ) 0 hj]
    ring
  rw [getD_recompute cents _ _ i (by omega) (by omega) (by omega),
    if_pos (by rw [hcnt]; exact hpos),
    getD_recomputeRow _ _ j
      (by
        rw [hrowsD _ (getD_mem _ i [] (by omega))]
        exact hj),
    hsum, hcnt, mul_one_div]

/-- Witness for C4: two one-dimensional points `2` and `4` assigned to
the single cluster; the recomputed centroid coordinate is their mean. -/
theorem C4_centroid_mean_witness :
    (([[0]] : List (List ℚ)).length = 1 ∧ 0 < 1 ∧ 0 < 1 ∧
      0 < (assignedVals ([[2], [4]] : List (List ℚ)) [0, 0] 0).length) ∧
    (((recompute [[0]]
        (clusterSums (List.replicate 1 (List.replicate 1 0))
          (List.replicate 1 0) ([[2], [4]] : List (List ℚ)) [0, 0]).1
        (clusterSums (List.replicate 1 (List.replicate 1 0))
          (List.replicate 1 0) ([[2], [4]] : List (List ℚ)) [0, 0]).2).getD 0 []).getD 0 0) =
      coordSum (assignedVals ([[2], [4]] : List (List ℚ)) [0, 0] 0) 0 /
        ((assignedVals ([[2], [4]] : List (List ℚ)) [0, 0] 0).length : ℚ) :=
  ⟨⟨by decide, by decide, by decide, by decide⟩,
    C4_centroid_mean 1 1 [[2], [4]] [0, 0] [[0]] 0 0 (by decide) (by decide)
      (by decide) (by decide)⟩

/-- Claim C5: in the RECOMPUTING step, a cluster with zero currently
assigned points keeps exactly its previous centroid coordinates (never
reset, never divided by zero), while a cluster with assigned points is
recomputed by the divide rule. -/
theorem C5_empty_cluster_frozen (K D : Nat) (pts : List (List ℚ))
    (assign : List Int) (cents : List (List ℚ)) (i : Nat)
    (hc : cents.length = K) (hi : i < K) :
    ((assignedVals pts assign i).length = 0 →
      (recompute cents
        (clusterSums (List.replicate K (List.replicate D 0))
          (List.replicate K 0) pts assign).1
        (clusterSums (List.replicate K (List.replicate D 0))
          (List.replicate K 0) pts assign).2).getD i [] = cents.getD i []) ∧
    (0 < (assignedVals pts assign i).length →
      (recompute cents
        (clusterSums (List.replicate K (List.replicate D 0))
          (List.replicate K 0) pts assign).1
        (clusterSums (List.replicate K (List.replicate D 0))
          (List.replicate K 0) pts assign).2).getD i [] =
        recomputeRow
          (((clusterSums (List.replicate K (List.replicate D 0))
            (List.replicate K 0) pts assign).1).getD i [])
          ((assignedVals pts assign i).length)) := by
  have hlen0 : (List.replicate K (List.replicate D (0:ℚ))).length = K := by simp
  have hlenc0 : (List.replicate K (0:Nat)).length = K := by simp
  have hz1len : ((clusterSums (List.replicate K (List.replicate D 0))
      (List.replicate K 0) pts assign).1).length = K := by
    rw [clusterSums_fst_length, hlen0]
  have hz2len : ((clusterSums (List.replicate K (List.replicate D 0))
      (List.replicate K 0) pts assign).2).length = K := by
    rw [clusterSums_snd_length, hlenc0]
  have hcnt : ((clusterSums (List.replicate K (List.replicate D 0))
      (List.replicate K 0) pts assign).2).getD i 0 =
      (assignedVals pts assign i).length := by
    rw [clusterSums_counts_getD i pts assign _ _ (by rw [hlenc0]; exact hi),
      getD_replicate K i 0 0 hi]
    omega
  constructor
  · intro hzero
    rw [getD_recompute cents _ _ i (by omega) (by omega) (by omega),
      if_neg (by rw [hcnt, hzero]; omega)]
  · intro hpos
    rw [getD_recompute cents _ _ i (by omega) (by omega) (by omega),
      if_pos (by rw [hcnt]; exact hpos), hcnt]

/-- Witness for C5: cluster 0 of two has no assigned point and keeps its
previous centroid `[7]`; cluster 1 holds the single point. -/
theorem C5_empty_cluster_frozen_witness :
    (([[7], [0]] : List (List ℚ)).length = 2 ∧ 0 < 2) ∧
    ((assignedVals ([[5]] : List (List ℚ)) [1] 0).length = 0 →
      (recompute [[7], [0]]
        (clusterSums (List.replicate 2 (List.replicate 1 0))
          (List.replicate 2 0) ([[5]] : List (List ℚ)) [1]).1
        (clusterSums (List.replicate 2 (List.replicate 1 0))
          (List.replicate 2 0) ([[5]] : List (List ℚ)) [1]).2).getD 0 [] =
        ([[7], [0]] : List (List ℚ)).getD 0 []) ∧
    (0 < (assignedVals ([[5]] : List (List ℚ)) [1] 0).length →
      (recompute [[7], [0]]
        (clusterSums (List.replicate 2 (List.replicate 1 0))
          (List.replicate 2 0) ([[5]] : List (List ℚ)) [1]).1
        (clusterSums (List.replicate 2 (List.replicate 1 0))
          (List.replicate 2 0) ([[5]] : List (List ℚ)) [1]).2).getD 0 [] =
        recomputeRow
          (((clusterSums (List.replicate 2 (List.replicate 1 0))
            (List.replicate 2 0) ([[5]] : List (List ℚ)) [1]).1).getD 0 [])
          ((assignedVals ([[5]] : List (List ℚ)) [1] 0).length)) :=
  ⟨⟨by decide, by decide⟩,
    (C5_empty_cluster_frozen 2 1 [[5]] [1] [[7], [0]] 0 (by decide) (by decide)).1,
    (C5_empty_cluster_frozen 2 1 [[5]] [1] [[7], [0]] 0 (by decide) (by decide)).2⟩

/-- Claim C6: with `K > total_points`, both `KMeans::run` drivers are a
defined no-op: they return, produce no clusters, and every point keeps
its load-time cluster id `-1`. -/
theorem C6_precondition_noop (K D maxIter : Nat) (pts : List (List ℚ))
    (seeds : List Nat) (h : pts.length < K) :
    serialRun K D maxIter pts seeds = .noop (List.replicate pts.length (-1)) ∧
    usionRun K D maxIter pts seeds = .noop (List.replicate pts.length (-1)) := by
  constructor
  · simp only [serialRun]
    rw [if_pos h]
    rfl
  · simp only [usionRun]
    rw [if_pos h]
    rfl

/-- Witness for C6: one point, `K = 2`. -/
theorem C6_precondition_noop_witness :
    (([[0]] : List (List ℚ)).length < 2) ∧
    (serialRun 2 1 5 ([[0]] : List (List ℚ)) [] = .noop (List.replicate 1 (-1)) ∧
      usionRun 2 1 5 ([[0]] : List (List ℚ)) [] = .noop (List.replicate 1 (-1))) :=
  ⟨by decide, C6_precondition_noop 2 1 5 [[0]] [] (by decide)⟩

/-- Counterexample to claim C7 as stated: with `K = 1 ≤ total_points = 1`
and `max_iterations = 0`, the driver still executes one full iteration
and stops at iteration count 1, which exceeds `max_iterations`. -/
theorem C7_counterexample :
    (1 : Nat) ≤ ([[0]] : List (List ℚ)).length ∧
    (serialRun 1 1 0 ([[0]] : List (List ℚ)) [0]).iterOf = 1 ∧
    ¬ ((serialRun 1 1 0 ([[0]] : List (List ℚ)) [0]).iterOf ≤ 0) := by decide

/-- Claim C7, amended: for every run with `K ≤ total_points` (with its
`K` seeds) and `max_iterations ≥ 1`, both iteration drivers terminate in
a `finished` state, the stop reason is exactly one of CONVERGED or
ITERATION_LIMIT_REACHED, and the stopping iteration count never exceeds
`max_iterations`. -/
theorem C7_amended (K D maxIter : Nat) (pts : List (List ℚ)) (seeds : List Nat)
    (hK : K ≤ pts.length) (hs : seeds.length = K) (hm : 1 ≤ maxIter) :
    (∃ a c i r, serialRun K D maxIter pts seeds = .finished a c i r ∧ i ≤ maxIter ∧
      (r = StopReason.CONVERGED ∨ r = StopReason.ITERATION_LIMIT_REACHED)) ∧
    (∃ a c i r, usionRun K D maxIter pts seeds = .finished a c i r ∧ i ≤ maxIter ∧
      (r = StopReason.CONVERGED ∨ r = StopReason.ITERATION_LIMIT_REACHED)) := by
  constructor
  · simp only [serialRun]
    rw [if_neg (by omega)]
    obtain ⟨a, c, i, r, heq, hi, hr, _, _, _⟩ :=
      serialLoop_main K D pts maxIter maxIter 1
        (seedAssign (initAssign pts.length) seeds 0) (seedCents pts seeds)
        (by rw [seedCents_length, hs])
        (by rw [seedAssign_length]; simp [initAssign])
    exact ⟨a, c, i, r, heq, by omega, hr⟩
  · simp only [usionRun]
    rw [if_neg (by omega)]
    obtain ⟨a, c, i, r, heq, hi, hr⟩ :=
      usionLoop_shape K D pts maxIter maxIter
        (seedAssign (initAssign pts.length) seeds 0) (seedCents pts seeds)
        (clusterSums (List.replicate K (List.replicate D 0)) (List.replicate K 0)
          pts (seedAssign (initAssign pts.length) seeds 0)).1
        (clusterSums (List.replicate K (List.replicate D 0)) (List.replicate K 0)
          pts (seedAssign (initAssign pts.length) seeds 0)).2
        [] [] 1
    exact ⟨a, c, i, r, heq, by omega, hr⟩

/-- Witness for the amended C7 at `K = 1`, one point, one seed,
`max_iterations = 1`. -/
theorem C7_amended_witness :
    ((1 : Nat) ≤ ([[0]] : List (List ℚ)).length ∧ ([0] : List Nat).length = 1 ∧
      (1 : Nat) ≤ 1) ∧
    ((∃ a c i r, serialRun 1 1 1 ([[0]] : List (List ℚ)) [0] = .finished a c i r ∧
        i ≤ 1 ∧
        (r = StopReason.CONVERGED ∨ r = StopReason.ITERATION_LIMIT_REACHED)) ∧
      (∃ a c i r, usionRun 1 1 1 ([[0]] : List (List ℚ)) [0] = .finished a c i r ∧
        i ≤ 1 ∧
        (r = StopReason.CONVERGED ∨ r = StopReason.ITERATION_LIMIT_REACHED))) :=
  ⟨⟨by decide, by decide, by decide⟩,
    C7_amended 1 1 1 [[0]] [0] (by decide) (by decide) (by decide)⟩

/-- Counterexample to claim C8 as stated: `K = 1`, two one-dimensional
points, seed point 0, `max_iterations = 100`.  Iteration 1 moves the
unseeded point from `-1` to cluster 0, so the iteration is marked
changed and the driver only converges at iteration 2, not 1. -/
theorem C8_counterexample :
    (serialRun 1 1 100 ([[0], [1]] : List (List ℚ)) [0]).iterOf = 2 ∧
    (serialRun 1 1 100 ([[0], [1]] : List (List ℚ)) [0]).iterOf ≠ 1 := by decide

/-- The sequential loop entered with every point already assigned to the
single cluster 0 stops immediately with CONVERGED (no assignment can
change). -/
theorem serialLoop_K1_stop (D : Nat) (pts : List (List ℚ))
    (maxIter fuel iter : Nat) (c : List ℚ) :
    serialLoop 1 D pts maxIter fuel (List.replicate pts.length 0) [c] iter =
      .finished (List.replicate pts.length 0)
        (recompute [c]
          (clusterSums (List.replicate 1 (List.replicate D 0)) (List.replicate 1 0)
            pts (List.replicate pts.length 0)).1
          (clusterSums (List.replicate 1 (List.replicate D 0)) (List.replicate 1 0)
            pts (List.replicate pts.length 0)).2)
        iter StopReason.CONVERGED := by
  have ha := assignStep_K1_zero c pts
  have hcond : (assignStep [c] pts (List.replicate pts.length 0)).2 = false := by
    rw [ha]
  cases fuel with
  | zero =>
    simp only [serialLoop]
    rw [if_pos (Or.inl hcond), ha]
    rfl
  | succ f =>
    simp only [serialLoop]
    rw [if_pos (Or.inl hcond), ha]
    rfl

/-- One-step break: when the stopping condition holds after the
assignment pass, the sequential loop returns at the current iteration. -/
theorem serialLoop_break (K D : Nat) (pts : List (List ℚ)) (maxIter fuel : Nat)
    (assign : List Int) (cents : List (List ℚ)) (iter : Nat)
    (hcond : (assignStep cents pts assign).2 = false ∨ maxIter ≤ iter) :
    serialLoop K D pts maxIter fuel assign cents iter =
      .finished (assignStep cents pts assign).1
        (recompute cents
          (clusterSums (List.replicate K (List.replicate D 0)) (List.replicate K 0)
            pts (assignStep cents pts assign).1).1
          (clusterSums (List.replicate K (List.replicate D 0)) (List.replicate K 0)
            pts (assignStep cents pts assign).1).2)
        iter
        (if (assignStep cents pts assign).2 then StopReason.ITERATION_LIMIT_REACHED
          else StopReason.CONVERGED) := by
  cases fuel with
  | zero =>
    simp only [serialLoop]
    rw [if_pos hcond]
  | succ f =>
    simp only [serialLoop]
    rw [if_pos hcond]

/-- One-step continuation: when the stopping condition fails, the
sequential loop proceeds to the next iteration with the fresh
assignments and recomputed centroids. -/
theorem serialLoop_cont (K D : Nat) (pts : List (List ℚ)) (maxIter fuel : Nat)
    (assign : List Int) (cents : List (List ℚ)) (iter : Nat)
    (hcond : ¬ ((assignStep cents pts assign).2 = false ∨ maxIter ≤ iter)) :
    serialLoop K D pts maxIter (fuel + 1) assign cents iter =
      serialLoop K D pts maxIter fuel (assignStep cents pts assign).1
        (recompute cents
          (clusterSums (List.replicate K (List.replicate D 0)) (List.replicate K 0)
            pts (assignStep cents pts assign).1).1
          (clusterSums (List.replicate K (List.replicate D 0)) (List.replicate K 0)
            pts (assignStep cents pts assign).1).2)
        (iter + 1) := by
  conv_lhs => rw [serialLoop]
  rw [if_neg hcond]

/-- Claim C8, amended: with `K = 1` and `total_points ≥ 1`, the first
ASSIGNING pass sends every point to the single cluster 0.  A point that
was still unassigned (`-1`) counts as a change, so with `total_points`
large enough to leave unseeded points the driver stops at iteration 2,
and in general (for `max_iterations ≥ 2`) it stops with reason CONVERGED
at an iteration count of at most 2 (1 exactly when no point changed in
the first pass). -/
theorem C8_amended (D maxIter : Nat) (pts : List (List ℚ)) (s0 : Nat)
    (hn : 1 ≤ pts.length) (_hs : s0 < pts.length) (hm : 2 ≤ maxIter) :
    (assignStep (seedCents pts [s0]) pts (seedAssign (initAssign pts.length) [s0] 0)).1
      = List.replicate pts.length 0 ∧
    ∃ c i, serialRun 1 D maxIter pts [s0] =
      .finished (List.replicate pts.length 0) c i StopReason.CONVERGED ∧ i ≤ 2 := by
  have hc0 : seedCents pts [s0] = [pts.getD s0 []] := rfl
  have halen : (seedAssign (initAssign pts.length) [s0] 0).length = pts.length := by
    rw [seedAssign_length]
    simp [initAssign]
  have h1 : (assignStep (seedCents pts [s0]) pts
      (seedAssign (initAssign pts.length) [s0] 0)).1 = List.replicate pts.length 0 := by
    rw [hc0]
    exact assignStep_K1_fst _ pts _ halen
  refine ⟨h1, ?_⟩
  obtain ⟨k, rfl⟩ : ∃ k, maxIter = k + 1 + 1 := ⟨maxIter - 2, by omega⟩
  simp only [serialRun]
  rw [if_neg (by omega)]
  by_cases hch : (assignStep (seedCents pts [s0]) pts
      (seedAssign (initAssign pts.length) [s0] 0)).2 = false
  · refine ⟨recompute (seedCents pts [s0])
        (clusterSums (List.replicate 1 (List.replicate D 0)) (List.replicate 1 0)
          pts (List.replicate pts.length 0)).1
        (clusterSums (List.replicate 1 (List.replicate D 0)) (List.replicate 1 0)
          pts (List.replicate pts.length 0)).2, 1, ?_, by omega⟩
    rw [serialLoop_break 1 D pts (k + 1 + 1) (k + 1 + 1) _ _ 1 (Or.inl hch), h1, hch]
    rfl
  · have hlen1 : (recompute (seedCents pts [s0])
        (clusterSums (List.replicate 1 (List.replicate D 0)) (List.replicate 1 0)
          pts (assignStep (seedCents pts [s0]) pts
            (seedAssign (initAssign pts.length) [s0] 0)).1).1
        (clusterSums (List.replicate 1 (List.replicate D 0)) (List.replicate 1 0)
          pts (assignStep (seedCents pts [s0]) pts
            (seedAssign (initAssign pts.length) [s0] 0)).1).2).length = 1 := by
      rw [recompute_length, hc0]
      rfl
    obtain ⟨c', hc'⟩ := List.length_eq_one.mp hlen1
    refine ⟨recompute [c']
        (clusterSums (List.replicate 1 (List.replicate D 0)) (List.replicate 1 0)
          pts (List.replicate pts.length 0)).1
        (clusterSums (List.replicate 1 (List.replicate D 0)) (List.replicate 1 0)
          pts (List.replicate pts.length 0)).2, 2, ?_, by omega⟩
    rw [serialLoop_cont 1 D pts (k + 1 + 1) (k + 1) _ _ 1
      (not_or.mpr ⟨hch, by omega⟩)]
    rw [hc', h1]
    exact serialLoop_K1_stop D pts (k + 1 + 1) (k + 1) 2 c'

/-- Witness for the amended C8: two one-dimensional points, seed 0,
`max_iterations = 5`. -/
theorem C8_amended_witness :
    ((1 : Nat) ≤ ([[0], [1]] : List (List ℚ)).length ∧
      0 < ([[0], [1]] : List (List ℚ)).length ∧ (2 : Nat) ≤ 5) ∧
    ((assignStep (seedCents ([[0], [1]] : List (List ℚ)) [0]) [[0], [1]]
        (seedAssign (initAssign 2) [0] 0)).1 = List.replicate 2 0 ∧
      ∃ c i, serialRun 1 1 5 ([[0], [1]] : List (List ℚ)) [0] =
        .finished (List.replicate 2 0) c i StopReason.CONVERGED ∧ i ≤ 2) :=
  ⟨⟨by decide, by decide, by decide⟩,
    C8_amended 1 5 [[0], [1]] 0 (by decide) (by decide) (by decide)⟩

/-- Counterexample to claim C9 as stated: `K = 0 ≤ total_points = 1`.
The oracle on an empty centroid set returns its initial
`id_cluster_center = 0`, so the single point ends with cluster id 0,
which is not in the empty range `[0, 0)` (and the recompute step indexes
the empty accumulator arrays out of bounds in the C++). -/
theorem C9_counterexample :
    (serialRun 0 1 1 ([[0]] : List (List ℚ)) []).assignOf = [0] ∧
    ¬ (∀ x ∈ (serialRun 0 1 1 ([[0]] : List (List ℚ)) []).assignOf,
        0 ≤ x ∧ x < ((0 : Nat) : Int)) := by decide

/-- Claim C9, amended: for every run with `1 ≤ K ≤ total_points` (with
its `K` seeds), after the sequential driver terminates every point has a
cluster id, and every cluster id lies in `[0, K)`. -/
theorem C9_amended (K D maxIter : Nat) (pts : List (List ℚ)) (seeds : List Nat)
    (h1 : 1 ≤ K) (hK : K ≤ pts.length) (hs : seeds.length = K) :
    ((serialRun K D maxIter pts seeds).assignOf).length = pts.length ∧
    ∀ x ∈ (serialRun K D maxIter pts seeds).assignOf, 0 ≤ x ∧ x < (K : Int) := by
  simp only [serialRun]
  rw [if_neg (by omega)]
  obtain ⟨a, c, i, r, heq, _, _, hal, hmem, _⟩ :=
    serialLoop_main K D pts maxIter maxIter 1
      (seedAssign (initAssign pts.length) seeds 0) (seedCents pts seeds)
      (by rw [seedCents_length, hs])
      (by rw [seedAssign_length]; simp [initAssign])
  rw [heq]
  exact ⟨hal, hmem h1⟩

/-- Witness for the amended C9 at `K = 1`, one point, one seed. -/
theorem C9_amended_witness :
    ((1 : Nat) ≤ 1 ∧ (1 : Nat) ≤ ([[0]] : List (List ℚ)).length ∧
      ([0] : List Nat).length = 1) ∧
    (((serialRun 1 1 1 ([[0]] : List (List ℚ)) [0]).assignOf).length =
        ([[0]] : List (List ℚ)).length ∧
      ∀ x ∈ (serialRun 1 1 1 ([[0]] : List (List ℚ)) [0]).assignOf,
        0 ≤ x ∧ x < ((1 : Nat) : Int)) :=
  ⟨⟨by decide, by decide, by decide⟩,
    C9_amended 1 1 1 [[0]] [0] (by decide) (by decide) (by decide)⟩

/-- Claim C1 fails on the code (the source file itself is annotated
"CURRENTLY BROKEN IN SUBMISSION"): with the same fixed initial centroid
selection (seed points 0 and 1), one-dimensional points `0, 1, 10`,
`K = 2` and `max_iterations = 10`, the sequential driver converges to
assignments `[0, 0, 1]` (iteration 3) while the concurrent driver —
whose merged sums are zeroed right after the merge and whose
thread-local accumulators are never sized — never updates its centroids
after initialization and stops at iteration 2 with `[0, 1, 1]`. -/
theorem C1_divergence :
    (serialRun 2 1 10 ([[0], [1], [10]] : List (List ℚ)) [0, 1]).assignOf = [0, 0, 1] ∧
    (usionRun 2 1 10 ([[0], [1], [10]] : List (List ℚ)) [0, 1]).assignOf = [0, 1, 1] ∧
    (serialRun 2 1 10 ([[0], [1], [10]] : List (List ℚ)) [0, 1]).assignOf ≠
      (usionRun 2 1 10 ([[0], [1], [10]] : List (List ℚ)) [0, 1]).assignOf := by decide

/-- Claim C2 fails on the code: in the concurrent driver the
thread-local accumulators are default-constructed empty (never sized to
`K × D`, never reset), so in iteration 1 of the run with `K = D = 1`,
points `1, 2`, seed 0, the context's count accumulator is `[]` rather
than a `K`-length zero array, every local accumulation is an
out-of-bounds write, the merged global count is 1 (the stale pre-loop
value) although 2 points were assigned to cluster 0 in the iteration,
and the final centroid stays at the seed value `1` instead of the mean
`3/2`. -/
theorem C2_accumulator_divergence :
    (fusedStep
        (recompute (seedCents ([[1], [2]] : List (List ℚ)) [0])
          (clusterSums (List.replicate 1 (List.replicate 1 0)) (List.replicate 1 0)
            ([[1], [2]] : List (List ℚ)) (seedAssign (initAssign 2) [0] 0)).1
          (clusterSums (List.replicate 1 (List.replicate 1 0)) (List.replicate 1 0)
            ([[1], [2]] : List (List ℚ)) (seedAssign (initAssign 2) [0] 0)).2)
        ([[1], [2]] : List (List ℚ)) (seedAssign (initAssign 2) [0] 0) [] []).locC = [] ∧
    mergeCounts
      (clusterSums (List.replicate 1 (List.replicate 1 0)) (List.replicate 1 0)
        ([[1], [2]] : List (List ℚ)) (seedAssign (initAssign 2) [0] 0)).2
      (fusedStep
        (recompute (seedCents ([[1], [2]] : List (List ℚ)) [0])
          (clusterSums (List.replicate 1 (List.replicate 1 0)) (List.replicate 1 0)
            ([[1], [2]] : List (List ℚ)) (seedAssign (initAssign 2) [0] 0)).1
          (clusterSums (List.replicate 1 (List.replicate 1 0)) (List.replicate 1 0)
            ([[1], [2]] : List (List ℚ)) (seedAssign (initAssign 2) [0] 0)).2)
        ([[1], [2]] : List (List ℚ)) (seedAssign (initAssign 2) [0] 0) [] []).locC = [1] ∧
    (assignedVals ([[1], [2]] : List (List ℚ))
      (fusedStep
        (recompute (seedCents ([[1], [2]] : List (List ℚ)) [0])
          (clusterSums (List.replicate 1 (List.replicate 1 0)) (List.replicate 1 0)
            ([[1], [2]] : List (List ℚ)) (seedAssign (initAssign 2) [0] 0)).1
          (clusterSums (List.replicate 1 (List.replicate 1 0)) (List.replicate 1 0)
            ([[1], [2]] : List (List ℚ)) (seedAssign (initAssign 2) [0] 0)).2)
        ([[1], [2]] : List (List ℚ)) (seedAssign (initAssign 2) [0] 0) [] []).assign 0).length
      = 2 ∧
    usionRun 1 1 3 ([[1], [2]] : List (List ℚ)) [0] =
      .finished [0, 0] [[1]] 2 StopReason.CONVERGED := by decide

/-- Claim C10 fails on the code: right before the pre-loop sum of
`usion-parallel.cpp` (lines 216-225), with `K = 1` and two points of
which point 0 is the seed, point 1 still has cluster id `-1`, so the sum
indexes `cluster_sizes[-1]` — an out-of-bounds access.  Every run with
`K < total_points` leaves such unseeded points. -/
theorem C10_preloop_bounds :
    seedAssign (initAssign 2) [0] 0 = [0, -1] ∧
    ¬ (∀ x ∈ seedAssign (initAssign 2) [0] 0,
        0 ≤ x ∧ x < ((1 : Nat) : Int)) := by decide

end KMeansPar
